import Mathlib

/-!
Verification of the model-driven UI automation library (`lookup.ts`,
`powerapps-uci-forms.ts`, `powerapps-uci-grid.ts`) against its
natural-language specification.

The library drives a web UI through accessibility locators.  We embed the
algorithmically relevant parts shallowly:

* option containers are lists of the accessible-name strings that are
  currently rendered; virtualized containers are functions from the number
  of scroll operations performed to the rendered window;
* the JavaScript regular expressions the library builds are interpreted by
  a small matcher covering exactly the constructs those patterns use
  (literal characters, `\c` escapes, `.`, pure grouping parentheses, and
  leading `^` / trailing `$` anchors); patterns outside this subset parse
  to `none` and never match, which is sound for every pattern the theorems
  below evaluate;
* Playwright's `locator.first()` over a name filter is `List.find?`.
-/

namespace MD

/-- The metacharacter class of `esc` in `lookup.ts` / `powerapps-uci-forms.ts`:
`s.replace(/[.*+?^$\x7b\x7d()|[\]\\]/g, String.raw)` with a backslash prefix. -/
def metachars : List Char := ['.', '*', '+', '?', '^', '$', '\x7b', '\x7d', '(', ')', '|', '[', ']', '\\']

/-- Character-level body of `esc`: each metacharacter is preceded by a backslash. -/
def escChars : List Char → List Char
  | [] => []
  | c :: cs => (if c ∈ metachars then ['\\', c] else [c]) ++ escChars cs

/-- `esc` from `lookup.ts` line 5 (identical copy in `powerapps-uci-forms.ts`):
escape a string for use inside a RegExp. -/
def esc (s : String) : String := ⟨escChars s.data⟩

/-- A width-one regex token: a literal character or the `.` wildcard. -/
inductive Tok
  | lit (c : Char)
  | dot
deriving DecidableEq

/-- Regex constructs the interpreter does not model; a pattern containing one
of these unescaped parses to `none`. -/
def unsupportedChars : List Char := ['*', '+', '?', '|', '[', ']', '\x7b', '\x7d', '^']

def consTok (t : Tok) : Option (List Tok × Bool) → Option (List Tok × Bool)
  | some (ts, e) => some (t :: ts, e)
  | none => none

/-- Parse a regex body (after any leading `^`) into width-one tokens plus a
flag recording a trailing `$` anchor.  `d` counts open grouping parentheses. -/
def parseToks (d : Nat) : List Char → Option (List Tok × Bool)
  | [] => if d = 0 then some ([], false) else none
  | c :: rest =>
    if c = '\\' then
      match rest with
      | [] => none
      | c2 :: rest2 => consTok (Tok.lit c2) (parseToks d rest2)
    else if c = '$' then
      if rest.isEmpty ∧ d = 0 then some ([], true) else none
    else if c = '(' then parseToks (d + 1) rest
    else if c = ')' then
      match d with
      | 0 => none
      | d' + 1 => parseToks d' rest
    else if c = '.' then consTok Tok.dot (parseToks d rest)
    else if c ∈ unsupportedChars then none
    else consTok (Tok.lit c) (parseToks d rest)

/-- A parsed pattern: optional start anchor, token body, optional end anchor. -/
structure RxPat where
  anchorStart : Bool
  toks : List Tok
  anchorEnd : Bool
deriving DecidableEq

def parseRxChars : List Char → Option RxPat
  | '^' :: rest => (parseToks 0 rest).map fun r => ⟨true, r.1, r.2⟩
  | cs => (parseToks 0 cs).map fun r => ⟨false, r.1, r.2⟩

/-- Parse a JS regex source string into the modelled subset. -/
def parseRx (p : String) : Option RxPat := parseRxChars p.data

/-- Does one token match one character?  `ci` is the `i` flag. -/
def tokMatch (ci : Bool) : Tok → Char → Bool
  | Tok.lit c, d => if ci then c.toLower == d.toLower else c == d
  | Tok.dot, d => d != '\n'

/-- Tokens match the whole character list. -/
def toksFull (ci : Bool) : List Tok → List Char → Bool
  | [], [] => true
  | [], _ :: _ => false
  | _ :: _, [] => false
  | t :: ts, c :: cs => tokMatch ci t c && toksFull ci ts cs

/-- Tokens match some leading segment of the character list. -/
def toksFront (ci : Bool) : List Tok → List Char → Bool
  | [], _ => true
  | _ :: _, [] => false
  | t :: ts, c :: cs => tokMatch ci t c && toksFront ci ts cs

/-- Tokens match a segment starting somewhere in the character list. -/
def toksWithin (ci : Bool) (ts : List Tok) : List Char → Bool
  | [] => toksFront ci ts []
  | c :: cs => toksFront ci ts (c :: cs) || toksWithin ci ts cs

/-- Tokens match some trailing segment (whole-suffix) of the character list. -/
def toksBack (ci : Bool) (ts : List Tok) : List Char → Bool
  | [] => toksFull ci ts []
  | c :: cs => toksFull ci ts (c :: cs) || toksBack ci ts cs

/-- `RegExp.test` semantics for a parsed pattern. -/
def rxMatch (ci : Bool) (pat : RxPat) (text : String) : Bool :=
  match pat.anchorStart, pat.anchorEnd with
  | true, true => toksFull ci pat.toks text.data
  | true, false => toksFront ci pat.toks text.data
  | false, true => toksBack ci pat.toks text.data
  | false, false => toksWithin ci pat.toks text.data

/-- Playwright locator name matching with a regex: `rx.test(accessibleName)`.
A pattern outside the modelled subset matches nothing. -/
def nameMatches (ci : Bool) (p : String) (text : String) : Bool :=
  ((parseRx p).map fun pat => rxMatch ci pat text).getD false

/-- `exactRx` of `selectLookupValue` / `pickFromLookupDialog` and the
`exact = true` pattern of `setOption` / `setLookup`: anchored full match
over the escaped value. -/
def exactRx (value : String) : String := "^" ++ esc value ++ "$"

/-- `startsRx` of `selectLookupValue` / `pickFromLookupDialog`: anchored at
the start only, over the escaped value. -/
def startsRx (value : String) : String := "^" ++ esc value

/-- Lower-cased character content of a string, for the `i` flag. -/
def lower (s : String) : List Char := s.data.map Char.toLower

/-- Case-insensitive whole-string equality. -/
def ciEq (a b : String) : Prop := lower a = lower b

instance : DecidablePred fun p : String × String => ciEq p.1 p.2 := fun _ => by
  unfold ciEq; infer_instance

instance (a b : String) : Decidable (ciEq a b) := by unfold ciEq; infer_instance

/-- Case-insensitive "starts with": `a` is a prefix of `b` up to case. -/
def ciStarts (a b : String) : Prop := (lower a).isPrefixOf (lower b) = true

instance (a b : String) : Decidable (ciStarts a b) := by unfold ciStarts; infer_instance

/-! ### Characterization of the escaped, anchored patterns -/

/-- Characters the parser treats specially; all of them are metacharacters. -/
def parserSpecials : List Char := ['\\', '$', '(', ')', '.'] ++ unsupportedChars

theorem parserSpecials_subset_metachars : ∀ c ∈ parserSpecials, c ∈ metachars := by
  decide

theorem parseToks_cons_plain {c : Char} (hc : c ∉ parserSpecials) (d : Nat) (rest : List Char) :
    parseToks d (c :: rest) = consTok (Tok.lit c) (parseToks d rest) := by
  have h1 : ¬ c = '\\' := fun h => hc (by rw [h]; decide)
  have h2 : ¬ c = '$' := fun h => hc (by rw [h]; decide)
  have h3 : ¬ c = '(' := fun h => hc (by rw [h]; decide)
  have h4 : ¬ c = ')' := fun h => hc (by rw [h]; decide)
  have h5 : ¬ c = '.' := fun h => hc (by rw [h]; decide)
  have h6 : c ∉ unsupportedChars := fun h => hc (by
    unfold parserSpecials
    exact List.mem_append_right _ h)
  rw [parseToks.eq_def]
  simp only [if_neg h1, if_neg h2, if_neg h3, if_neg h4, if_neg h5, if_neg h6]

theorem parseToks_plain_append {cs : List Char} (h : ∀ c ∈ cs, c ∉ parserSpecials)
    (d : Nat) (tail : List Char) :
    parseToks d (cs ++ tail) =
      (parseToks d tail).map fun r => (cs.map Tok.lit ++ r.1, r.2) := by
  induction cs with
  | nil =>
    simp only [List.nil_append, List.map_nil]
    cases parseToks d tail with
    | none => rfl
    | some r => rfl
  | cons c cs ih =>
    have hc : c ∉ parserSpecials := h c (List.mem_cons_self c cs)
    have hcs : ∀ x ∈ cs, x ∉ parserSpecials := fun x hx => h x (List.mem_cons_of_mem c hx)
    rw [List.cons_append, parseToks_cons_plain hc, ih hcs]
    cases parseToks d tail with
    | none => rfl
    | some r => rfl

theorem parseToks_escChars (cs : List Char) (d : Nat) (tail : List Char) :
    parseToks d (escChars cs ++ tail) =
      (parseToks d tail).map fun r => (cs.map Tok.lit ++ r.1, r.2) := by
  induction cs with
  | nil =>
    simp only [escChars, List.nil_append, List.map_nil]
    cases parseToks d tail with
    | none => rfl
    | some r => rfl
  | cons c cs ih =>
    by_cases hc : c ∈ metachars
    · simp only [escChars, if_pos hc, List.cons_append, List.nil_append]
      have : parseToks d ('\\' :: c :: (escChars cs ++ tail)) =
          consTok (Tok.lit c) (parseToks d (escChars cs ++ tail)) := by
        rw [parseToks.eq_def]
        simp
      rw [this, ih]
      cases parseToks d tail with
      | none => rfl
      | some r => rfl
    · have hcp : c ∉ parserSpecials := fun hp => hc (parserSpecials_subset_metachars c hp)
      simp only [escChars, if_neg hc, List.cons_append, List.nil_append]
      rw [parseToks_cons_plain hcp, ih]
      cases parseToks d tail with
      | none => rfl
      | some r => rfl

theorem parseToks_dollar : parseToks 0 ['$'] = some ([], true) := by decide

theorem parseToks_nil : parseToks 0 [] = some ([], false) := by decide

theorem data_exactRx (v : String) :
    (exactRx v).data = '^' :: (escChars v.data ++ ['$']) := by
  simp [exactRx, esc, String.data_append]

theorem data_startsRx (v : String) :
    (startsRx v).data = '^' :: escChars v.data := by
  simp [startsRx, esc, String.data_append]

theorem parseRx_exactRx (v : String) :
    parseRx (exactRx v) = some ⟨true, v.data.map Tok.lit, true⟩ := by
  rw [parseRx, data_exactRx, parseRxChars, parseToks_escChars, parseToks_dollar]
  simp

theorem parseRx_startsRx (v : String) :
    parseRx (startsRx v) = some ⟨true, v.data.map Tok.lit, false⟩ := by
  have h := parseToks_escChars v.data 0 []
  rw [parseToks_nil] at h
  simp only [List.append_nil] at h
  rw [parseRx, data_startsRx, parseRxChars, h]
  simp

theorem toksFull_lit (cs ds : List Char) :
    toksFull true (cs.map Tok.lit) ds = true ↔
      cs.map Char.toLower = ds.map Char.toLower := by
  induction cs generalizing ds with
  | nil => cases ds <;> simp [toksFull]
  | cons c cs ih =>
    cases ds with
    | nil => simp [toksFull]
    | cons d ds => simp [toksFull, tokMatch, ih]

theorem toksFront_lit (cs ds : List Char) :
    toksFront true (cs.map Tok.lit) ds = true ↔
      (cs.map Char.toLower).isPrefixOf (ds.map Char.toLower) = true := by
  induction cs generalizing ds with
  | nil => simp [toksFront, List.isPrefixOf]
  | cons c cs ih =>
    cases ds with
    | nil => simp [toksFront, List.isPrefixOf]
    | cons d ds => simp [toksFront, tokMatch, ih, List.isPrefixOf]

/-- The exact-match tier: the escaped, fully anchored, case-insensitive
pattern matches exactly the strings that are case-insensitively equal to
the literal value. -/
theorem nameMatches_exactRx (v t : String) :
    nameMatches true (exactRx v) t = true ↔ ciEq v t := by
  rw [nameMatches, parseRx_exactRx]
  show toksFull true (v.data.map Tok.lit) t.data = true ↔ ciEq v t
  rw [toksFull_lit]
  unfold ciEq lower
  rfl

/-- The relaxed tier of `lookup.ts`: the escaped, start-anchored,
case-insensitive pattern matches exactly the strings that start with the
literal value up to case. -/
theorem nameMatches_startsRx (v t : String) :
    nameMatches true (startsRx v) t = true ↔ ciStarts v t := by
  rw [nameMatches, parseRx_startsRx]
  show toksFront true (v.data.map Tok.lit) t.data = true ↔ ciStarts v t
  rw [toksFront_lit]
  unfold ciStarts lower
  rfl

/-! ### Selection models

An option container is the list of accessible names of its currently
rendered entries; `List.find?` is Playwright's `.first()` over a name
filter.  A virtualized listbox is a function `Nat → List String` mapping
the number of scroll operations performed so far to the rendered window. -/

/-- First rendered entry accepted by a predicate (`locator.first()`). -/
def firstMatch (p : String → Bool) (opts : List String) : Option String :=
  opts.find? p

/-- The probe `selectLookupValue` runs before scrolling (lookup.ts 154-169):
first the `exactRx` tier; when `exact` is false, the `startsRx` tier next. -/
def initialProbe (exact : Bool) (value : String) (opts : List String) : Option String :=
  match firstMatch (nameMatches true (exactRx value)) opts with
  | some o => some o
  | none => if exact then none else firstMatch (nameMatches true (startsRx value)) opts

/-- The probe run after each scroll (lookup.ts 172-186).  When `exact` is
false the `option` locator has been reassigned to the `startsRx` pattern
(line 164), so both in-loop checks use `startsRx`; when `exact` is true
only the `exactRx` check runs. -/
def loopProbe (exact : Bool) (value : String) (opts : List String) : Option String :=
  if exact then firstMatch (nameMatches true (exactRx value)) opts
  else
    match firstMatch (nameMatches true (startsRx value)) opts with
    | some o => some o
    | none => firstMatch (nameMatches true (startsRx value)) opts

/-- Observable actions of the listbox phase of `selectLookupValue`. -/
inductive Ev
  | scroll
  | click (name : String)
  | openDialog
deriving DecidableEq

/-- The scroll loop of `selectLookupValue` (lookup.ts 172-189): scroll once,
re-probe, click and stop on a hit; after `rem` more iterations without a
hit, escalate to `pickFromLookupDialog`.  `done` counts scrolls performed. -/
def lookupLoop (exact : Bool) (value : String) (vis : Nat → List String) :
    Nat → Nat → List Ev
  | _, 0 => [Ev.openDialog]
  | done, rem + 1 =>
    Ev.scroll ::
      match loopProbe exact value (vis (done + 1)) with
      | some o => [Ev.click o]
      | none => lookupLoop exact value vis (done + 1) rem

/-- Event trace of the listbox phase of `selectLookupValue`: initial tiered
probe on the unscrolled window, then the bounded scroll loop. -/
def selectLookupTrace (exact : Bool) (value : String) (vis : Nat → List String)
    (scrollPages : Nat) : List Ev :=
  match initialProbe exact value (vis 0) with
  | some o => [Ev.click o]
  | none => lookupLoop exact value vis 0 scrollPages

/-- The pattern `setOption` / `setLookup` compile
(powerapps-uci-forms.ts 127 and 179): the escaped anchored pattern when
`exact`, otherwise the raw value as an unanchored pattern. -/
def optionRx (exact : Bool) (value : String) : String :=
  if exact then exactRx value else value

inductive OptOutcome
  | picked (name : String)
  | notFound
deriving DecidableEq

/-- `setOption` (powerapps-uci-forms.ts 123-132): one query over the fully
rendered listbox; a miss fails the `expect(opt).toBeVisible()` assertion. -/
def setOptionModel (exact : Bool) (value : String) (opts : List String) : OptOutcome :=
  match firstMatch (nameMatches true (optionRx exact value)) opts with
  | some o => OptOutcome.picked o
  | none => OptOutcome.notFound

/-- Event trace of `setOption`: a click on a hit, nothing on a miss (the
failed assertion raises; no dialog is ever opened). -/
def setOptionTrace (exact : Bool) (value : String) (opts : List String) : List Ev :=
  match firstMatch (nameMatches true (optionRx exact value)) opts with
  | some o => [Ev.click o]
  | none => []

inductive SetLookupOutcome
  | picked (name : String)
  | dialogSearch
  | noResultError
deriving DecidableEq

/-- `setLookup` (powerapps-uci-forms.ts 178-189): query the listbox with
`optionRx`; on a miss, click a "search/look up more records" entry when one
is rendered (`hasMore`), else raise "No lookup result". -/
def setLookupModel (exact : Bool) (value : String) (opts : List String)
    (hasMore : Bool) : SetLookupOutcome :=
  match firstMatch (nameMatches true (optionRx exact value)) opts with
  | some o => SetLookupOutcome.picked o
  | none =>
    if hasMore then SetLookupOutcome.dialogSearch else SetLookupOutcome.noResultError

/-- `escapeForRx` from `powerapps-uci-grid.ts` (same body as `esc`). -/
def escapeForRx (s : String) : String := esc s

/-- `rx` from `powerapps-uci-grid.ts` 24-25 for a string value: unanchored
escaped pattern when `partialFlag`, fully anchored otherwise. -/
def gridValueRx (value : String) (partialFlag : Bool) : String :=
  if partialFlag then escapeForRx value else "^" ++ escapeForRx value ++ "$"

inductive GridOutcome
  | foundRow (cellText : String)
  | errorAfter
deriving DecidableEq

/-- The `while (attempts <= maxScrolls)` loop of `findRowByCell`
(powerapps-uci-grid.ts 75-100): probe the rendered column, return the row
on a hit, otherwise scroll once and retry.  `done` counts scrolls
performed; `fuel` counts remaining probes.  Returns the outcome and the
number of scroll operations performed. -/
def gridSearch (pred : String → Bool) (vis : Nat → List String) :
    Nat → Nat → GridOutcome × Nat
  | done, 0 => (GridOutcome.errorAfter, done)
  | done, fuel + 1 =>
    match firstMatch pred (vis done) with
    | some o => (GridOutcome.foundRow o, done)
    | none => gridSearch pred vis (done + 1) fuel

/-- `findRowByCell` (powerapps-uci-grid.ts 68-105): probes run at scroll
offsets `0, 1, …, maxScrolls` (the loop condition is
`attempts <= maxScrolls`), each failed probe performing one scroll. -/
def findRowByCell (pred : String → Bool) (vis : Nat → List String)
    (maxScrolls : Nat) : GridOutcome × Nat :=
  gridSearch pred vis 0 (maxScrolls + 1)

/-! ### Lemmas about the probes and loops -/

def countScroll : List Ev → Nat
  | [] => 0
  | Ev.scroll :: t => countScroll t + 1
  | _ :: t => countScroll t

def countDialog : List Ev → Nat
  | [] => 0
  | Ev.openDialog :: t => countDialog t + 1
  | _ :: t => countDialog t

theorem countScroll_replicate (n : Nat) (e : Ev) (hne : e ≠ Ev.scroll) :
    countScroll (List.replicate n Ev.scroll ++ [e]) = n := by
  induction n with
  | zero =>
    cases e with
    | scroll => exact absurd rfl hne
    | click o => rfl
    | openDialog => rfl
  | succ n ih => simpa [List.replicate_succ, countScroll] using ih

theorem countDialog_replicate_dialog (n : Nat) :
    countDialog (List.replicate n Ev.scroll ++ [Ev.openDialog]) = 1 := by
  induction n with
  | zero => rfl
  | succ n ih => simpa [List.replicate_succ, countDialog] using ih

theorem firstMatch_of_mem {p : String → Bool} {opts : List String} {e : String}
    (he : e ∈ opts) (hp : p e = true) :
    ∃ r, firstMatch p opts = some r ∧ p r = true := by
  cases h : opts.find? p with
  | none => exact absurd (List.find?_eq_none.mp h e he hp) (by simp)
  | some r => exact ⟨r, h, List.find?_some h⟩

theorem firstMatch_some {p : String → Bool} {opts : List String} {r : String}
    (h : firstMatch p opts = some r) : p r = true :=
  List.find?_some h

/-- The exact tier is queried first: whenever the rendered window holds an
entry case-insensitively equal to the value, `initialProbe` returns such an
entry, in either matching mode. -/
theorem initialProbe_finds_exact (exact : Bool) (value : String) (opts : List String)
    (e : String) (he : e ∈ opts) (heq : ciEq value e) :
    ∃ r, initialProbe exact value opts = some r ∧ ciEq value r := by
  obtain ⟨r, hr, hpr⟩ :=
    firstMatch_of_mem (p := nameMatches true (exactRx value)) he
      ((nameMatches_exactRx value e).mpr heq)
  refine ⟨r, ?_, (nameMatches_exactRx value r).mp hpr⟩
  unfold initialProbe
  rw [hr]

/-- With `exact = true` the in-loop probe is just the exact tier. -/
theorem loopProbe_true (value : String) (opts : List String) :
    loopProbe true value opts = firstMatch (nameMatches true (exactRx value)) opts := rfl

/-- Whatever the in-loop probe returns in exact mode is case-insensitively
equal to the value. -/
theorem loopProbe_true_sound {value : String} {opts : List String} {r : String}
    (h : loopProbe true value opts = some r) : ciEq value r := by
  rw [loopProbe_true] at h
  exact (nameMatches_exactRx value r).mp (firstMatch_some h)

/-- Whatever the in-loop probe returns in relaxed mode starts with the
value (both in-loop tiers use the start-anchored escaped pattern). -/
theorem loopProbe_false_sound {value : String} {opts : List String} {r : String}
    (h : loopProbe false value opts = some r) : ciStarts value r := by
  unfold loopProbe at h
  simp only [Bool.false_eq_true, if_false] at h
  cases hf : firstMatch (nameMatches true (startsRx value)) opts with
  | some o =>
    rw [hf] at h
    cases h
    exact (nameMatches_startsRx value r).mp (firstMatch_some hf)
  | none =>
    rw [hf] at h
    simp at h

/-- Whatever the initial probe returns is exact, or (relaxed mode only) a
prefix-extension of the value. -/
theorem initialProbe_sound {exact : Bool} {value : String} {opts : List String} {r : String}
    (h : initialProbe exact value opts = some r) : ciEq value r ∨ ciStarts value r := by
  unfold initialProbe at h
  cases hf : firstMatch (nameMatches true (exactRx value)) opts with
  | some o =>
    rw [hf] at h
    cases h
    exact Or.inl ((nameMatches_exactRx value r).mp (firstMatch_some hf))
  | none =>
    rw [hf] at h
    cases exact with
    | true => simp at h
    | false =>
      simp only [Bool.false_eq_true, if_false] at h
      exact Or.inr ((nameMatches_startsRx value r).mp (firstMatch_some h))

theorem lookupLoop_zero (exact : Bool) (value : String) (vis : Nat → List String)
    (done : Nat) : lookupLoop exact value vis done 0 = [Ev.openDialog] := rfl

theorem lookupLoop_succ (exact : Bool) (value : String) (vis : Nat → List String)
    (done rem : Nat) :
    lookupLoop exact value vis done (rem + 1) =
      Ev.scroll ::
        (match loopProbe exact value (vis (done + 1)) with
          | some o => [Ev.click o]
          | none => lookupLoop exact value vis (done + 1) rem) := rfl

/-- The scroll loop never scrolls more than its remaining budget. -/
theorem countScroll_lookupLoop (exact : Bool) (value : String) (vis : Nat → List String)
    (rem done : Nat) :
    countScroll (lookupLoop exact value vis done rem) ≤ rem := by
  induction rem generalizing done with
  | zero => simp [lookupLoop_zero, countScroll]
  | succ rem ih =>
    rw [lookupLoop_succ]
    cases h : loopProbe exact value (vis (done + 1)) with
    | some o => simp [countScroll]
    | none =>
      simp only [countScroll]
      exact Nat.succ_le_succ (ih (done + 1))

/-- When every probed window misses, the loop scrolls through its whole
budget and then (and only then) escalates to the dialog. -/
theorem lookupLoop_all_miss (exact : Bool) (value : String) (vis : Nat → List String)
    (rem done : Nat)
    (h : ∀ k, done < k → k ≤ done + rem → loopProbe exact value (vis k) = none) :
    lookupLoop exact value vis done rem =
      List.replicate rem Ev.scroll ++ [Ev.openDialog] := by
  induction rem generalizing done with
  | zero => simp [lookupLoop_zero]
  | succ rem ih =>
    rw [lookupLoop_succ, h (done + 1) (by omega) (by omega)]
    rw [ih (done + 1) (fun k hk1 hk2 => h k (by omega) (by omega))]
    simp [List.replicate_succ]

/-- When the first hit happens after exactly `k` scrolls (`done < k`), the
loop stops there: `k - done` scrolls, one click, no dialog. -/
theorem lookupLoop_found (exact : Bool) (value : String) (vis : Nat → List String)
    (rem : Nat) {k : Nat} {o : String} :
    ∀ done, done < k → k ≤ done + rem →
    (∀ j, done < j → j < k → loopProbe exact value (vis j) = none) →
    loopProbe exact value (vis k) = some o →
    lookupLoop exact value vis done rem =
      List.replicate (k - done) Ev.scroll ++ [Ev.click o] := by
  induction rem with
  | zero => intro done h1 h2 _ _; omega
  | succ rem ih =>
    intro done h1 h2 hmiss hk
    rw [lookupLoop_succ]
    by_cases hdk : done + 1 = k
    · rw [hdk, hk]
      have : k - done = 1 := by omega
      rw [this]
      rfl
    · have hlt : done + 1 < k := by omega
      rw [hmiss (done + 1) (by omega) hlt]
      rw [ih (done + 1) hlt (by omega) (fun j hj1 hj2 => hmiss j (by omega) hj2) hk]
      have : k - done = (k - (done + 1)) + 1 := by omega
      rw [this, List.replicate_succ]
      rfl

theorem gridSearch_zero (pred : String → Bool) (vis : Nat → List String) (done : Nat) :
    gridSearch pred vis done 0 = (GridOutcome.errorAfter, done) := rfl

theorem gridSearch_succ (pred : String → Bool) (vis : Nat → List String) (done fuel : Nat) :
    gridSearch pred vis done (fuel + 1) =
      (match firstMatch pred (vis done) with
        | some o => (GridOutcome.foundRow o, done)
        | none => gridSearch pred vis (done + 1) fuel) := rfl

/-- A grid search whose probes all miss performs one scroll per probe and
then raises: `done + fuel` scrolls in total. -/
theorem gridSearch_all_miss (pred : String → Bool) (vis : Nat → List String)
    (fuel : Nat) : ∀ done,
    (∀ j, done ≤ j → j < done + fuel → firstMatch pred (vis j) = none) →
    gridSearch pred vis done fuel = (GridOutcome.errorAfter, done + fuel) := by
  induction fuel with
  | zero => intro done _; simp [gridSearch_zero]
  | succ fuel ih =>
    intro done h
    rw [gridSearch_succ, h done (by omega) (by omega)]
    rw [ih (done + 1) (fun j hj1 hj2 => h j (by omega) (by omega))]
    have : done + 1 + fuel = done + (fuel + 1) := by omega
    rw [this]

/-- A grid search that first hits at scroll offset `k` stops there having
performed exactly `k - done` further scrolls. -/
theorem gridSearch_found (pred : String → Bool) (vis : Nat → List String)
    (fuel : Nat) {k : Nat} {o : String} :
    ∀ done, done ≤ k → k < done + fuel →
    (∀ j, done ≤ j → j < k → firstMatch pred (vis j) = none) →
    firstMatch pred (vis k) = some o →
    gridSearch pred vis done fuel = (GridOutcome.foundRow o, k) := by
  induction fuel with
  | zero => intro done h1 h2 _ _; omega
  | succ fuel ih =>
    intro done h1 h2 hmiss hk
    rw [gridSearch_succ]
    by_cases hdk : done = k
    · rw [hdk, hk]
    · rw [hmiss done (by omega) (by omega)]
      exact ih (done + 1) (by omega) (by omega)
        (fun j hj1 hj2 => hmiss j (by omega) hj2) hk

/-- In exact mode the initial probe only ever returns a case-insensitively
equal entry (its relaxed tier is disabled). -/
theorem initialProbe_true_sound {value : String} {opts : List String} {r : String}
    (h : initialProbe true value opts = some r) : ciEq value r := by
  unfold initialProbe at h
  cases hf : firstMatch (nameMatches true (exactRx value)) opts with
  | some o =>
    rw [hf] at h
    cases h
    exact (nameMatches_exactRx value r).mp (firstMatch_some hf)
  | none =>
    rw [hf] at h
    simp at h

/-- Every click emitted by the scroll loop was returned by an in-loop probe. -/
theorem lookupLoop_click_mem (exact : Bool) (value : String) (vis : Nat → List String)
    (rem : Nat) {o : String} :
    ∀ done, Ev.click o ∈ lookupLoop exact value vis done rem →
      ∃ k, loopProbe exact value (vis k) = some o := by
  induction rem with
  | zero => intro done h; simp [lookupLoop_zero] at h
  | succ rem ih =>
    intro done h
    rw [lookupLoop_succ] at h
    cases hp : loopProbe exact value (vis (done + 1)) with
    | some o' =>
      rw [hp] at h
      simp at h
      exact ⟨done + 1, by rw [hp, h]⟩
    | none =>
      rw [hp] at h
      simp only [List.mem_cons] at h
      rcases h with h | h
      · exact absurd h (by simp)
      · exact ih (done + 1) h

/-- If the scroll loop ever opens the dialog, it did so after a full budget
of scrolls with every probe missing: the trace is exactly `rem` scrolls
followed by the single dialog event. -/
theorem lookupLoop_dialog_mem (exact : Bool) (value : String) (vis : Nat → List String)
    (rem : Nat) :
    ∀ done, Ev.openDialog ∈ lookupLoop exact value vis done rem →
      lookupLoop exact value vis done rem =
        List.replicate rem Ev.scroll ++ [Ev.openDialog] := by
  induction rem with
  | zero => intro done _; simp [lookupLoop_zero]
  | succ rem ih =>
    intro done h
    rw [lookupLoop_succ] at h ⊢
    cases hp : loopProbe exact value (vis (done + 1)) with
    | some o =>
      rw [hp] at h
      simp at h
    | none =>
      rw [hp] at h
      show Ev.scroll :: lookupLoop exact value vis (done + 1) rem =
        List.replicate (rem + 1) Ev.scroll ++ [Ev.openDialog]
      have h' : Ev.openDialog ∈ lookupLoop exact value vis (done + 1) rem := by
        simp only [List.mem_cons] at h
        rcases h with h | h
        · exact absurd h (by simp)
        · exact h
      rw [ih (done + 1) h', List.replicate_succ]
      rfl

/-- The scroll loop opens the dialog at most once. -/
theorem countDialog_lookupLoop (exact : Bool) (value : String) (vis : Nat → List String)
    (rem : Nat) : ∀ done, countDialog (lookupLoop exact value vis done rem) ≤ 1 := by
  induction rem with
  | zero => intro done; simp [lookupLoop_zero, countDialog]
  | succ rem ih =>
    intro done
    rw [lookupLoop_succ]
    cases hp : loopProbe exact value (vis (done + 1)) with
    | some o => simp [countDialog]
    | none =>
      simp only [countDialog]
      exact ih (done + 1)

/-! ### Claims C1 - C5 -/

/-- Claim C1 is refuted as stated: with `exact = false`, `setOption`
compiles the single pattern `new RegExp(value, 'i')` — unanchored, with no
exact tier — so on a container holding both the exact entry `"Jane"` and
the longer prefix-sharing entry `"Jane Doe"` (listed first) it selects the
longer entry, which is not case-insensitively equal to the target. -/
theorem claim_C1_counterexample :
    setOptionModel false "Jane" ["Jane Doe", "Jane"] = OptOutcome.picked "Jane Doe" ∧
      ¬ ciEq "Jane" "Jane Doe" := by
  constructor
  · decide
  · decide

/-- Claim C1, amended: exact-match priority holds for `selectLookupValue`'s
listbox probe (the exact tier is queried first in both modes, and in exact
mode every click — initial or in-loop — is of a case-insensitively equal
entry) and for `setOption` with `exact = true`; it fails for `setOption`
with `exact = false`, which has no exact tier (see the counterexample). -/
theorem claim_C1 :
    (∀ (exact : Bool) (value : String) (opts : List String) (e : String),
        e ∈ opts → ciEq value e →
        ∃ r, initialProbe exact value opts = some r ∧ ciEq value r) ∧
    (∀ (value : String) (opts : List String) (e : String),
        e ∈ opts → ciEq value e →
        ∃ r, setOptionModel true value opts = OptOutcome.picked r ∧ ciEq value r) ∧
    (∀ (value : String) (vis : Nat → List String) (n : Nat) (o : String),
        Ev.click o ∈ selectLookupTrace true value vis n → ciEq value o) := by
  refine ⟨initialProbe_finds_exact, ?_, ?_⟩
  · intro value opts e he heq
    obtain ⟨r, hr, hpr⟩ :=
      firstMatch_of_mem (p := nameMatches true (exactRx value)) he
        ((nameMatches_exactRx value e).mpr heq)
    refine ⟨r, ?_, (nameMatches_exactRx value r).mp hpr⟩
    unfold setOptionModel optionRx
    rw [if_pos rfl, hr]
  · intro value vis n o h
    unfold selectLookupTrace at h
    cases hi : initialProbe true value (vis 0) with
    | some o' =>
      rw [hi] at h
      simp at h
      subst h
      exact initialProbe_true_sound hi
    | none =>
      rw [hi] at h
      obtain ⟨k, hk⟩ := lookupLoop_click_mem true value vis n 0 h
      exact loopProbe_true_sound hk

/-- Witness for claim C1's amended theorem at a concrete input. -/
theorem claim_C1_witness :
    ∃ r, initialProbe true "Jane" ["jane"] = some r ∧ ciEq "Jane" r :=
  claim_C1.1 true "Jane" ["jane"] "jane" (by decide) (by decide)

/-- Claim C2 is refuted as stated: the relaxed tier of `setLookup`
(`exact = false`) is `new RegExp(value, 'i')` — unanchored — so selecting
`"Jane"` from `["Mary Jane"]` succeeds although `"Mary Jane"` merely
contains (does not start with) the target. -/
theorem claim_C2_counterexample :
    setLookupModel false "Jane" ["Mary Jane"] false = SetLookupOutcome.picked "Mary Jane" ∧
      ¬ ciStarts "Jane" "Mary Jane" := by
  constructor
  · decide
  · decide

/-- Claim C2, amended: in `selectLookupValue` the relaxed tier is the
start-anchored `startsRx`, so (a) with `exact = false` and `"Jane Doe"`
rendered, selecting `"Jane"` succeeds, and every relaxed-tier hit is exact
or a prefix-extension of the target — never a mere-containment entry; (b)
`setLookup` with `exact = true`, no matching option and no "more records"
entry raises its "No lookup result" error.  In `setLookup`'s own relaxed
mode the pattern is the raw unanchored value, which also matches
mere-containment entries (see the counterexample). -/
theorem claim_C2 :
    (∀ (value : String) (opts : List String) (e : String),
        e ∈ opts → ciStarts value e →
        ∃ r, initialProbe false value opts = some r) ∧
    (∀ (value : String) (opts : List String) (r : String),
        initialProbe false value opts = some r → ciEq value r ∨ ciStarts value r) ∧
    (∀ (value : String) (opts : List String) (r : String),
        loopProbe false value opts = some r → ciStarts value r) ∧
    (∀ (value : String) (opts : List String),
        (∀ e ∈ opts, ¬ ciEq value e) →
        setLookupModel true value opts false = SetLookupOutcome.noResultError) ∧
    (initialProbe false "Jane" ["Jane Doe"] = some "Jane Doe" ∧
      setLookupModel true "Jane" ["Jane Doe"] false = SetLookupOutcome.noResultError) := by
  refine ⟨?_, fun _ _ _ h => initialProbe_sound h, fun _ _ _ h => loopProbe_false_sound h,
    ?_, by decide, by decide⟩
  · intro value opts e he hst
    unfold initialProbe
    cases hf : firstMatch (nameMatches true (exactRx value)) opts with
    | some o => exact ⟨o, rfl⟩
    | none =>
      obtain ⟨r, hr, _⟩ :=
        firstMatch_of_mem (p := nameMatches true (startsRx value)) he
          ((nameMatches_startsRx value e).mpr hst)
      exact ⟨r, by simp [hr]⟩
  · intro value opts h
    unfold setLookupModel optionRx
    rw [if_pos rfl]
    have : firstMatch (nameMatches true (exactRx value)) opts = none := by
      unfold firstMatch
      exact List.find?_eq_none.mpr fun e he hp =>
        h e he ((nameMatches_exactRx value e).mp hp)
    rw [this]
    rfl

/-- Witness for claim C2's amended theorem at a concrete input. -/
theorem claim_C2_witness :
    ∃ r, initialProbe false "Jane" ["Jane Doe"] = some r :=
  claim_C2.1 "Jane" ["Jane Doe"] "Jane Doe" (by decide) (by decide)

/-- Claim C3 is refuted as stated: the claim asserts escaping in every
matching mode, but the relaxed mode of `setOption` compiles the raw value
unescaped, so the target `"A.B (C)"` selects the unrelated entry `"AxB C"`
(`.` treated as a wildcard, the parentheses as grouping) — an entry the
escaped exact pattern correctly rejects. -/
theorem claim_C3_counterexample :
    setOptionModel false "A.B (C)" ["AxB C"] = OptOutcome.picked "AxB C" ∧
      nameMatches true (exactRx "A.B (C)") "AxB C" = false := by
  constructor
  · decide
  · decide

/-- Claim C3, amended: wherever `esc` is applied — the exact tier
everywhere, and `lookup.ts`'s start-anchored relaxed tier — metacharacters
in the literal are escaped before compilation, so the compiled pattern
matches exactly the strings case-insensitively equal to (respectively
starting with) the literal, e.g. `"A.B (C)"` matches itself and not
`"AxB C"`.  The relaxed mode of `setOption` / `setLookup` compiles the raw
value unescaped (see the counterexample). -/
theorem claim_C3 :
    (∀ v t : String, nameMatches true (exactRx v) t = true ↔ ciEq v t) ∧
    (∀ v t : String, nameMatches true (startsRx v) t = true ↔ ciStarts v t) ∧
    (nameMatches true (exactRx "A.B (C)") "A.B (C)" = true ∧
      nameMatches true (exactRx "A.B (C)") "AxB C" = false) :=
  ⟨nameMatches_exactRx, nameMatches_startsRx, by decide, by decide⟩

/-- Claim C4 is refuted as stated for `findRowByCell`: its loop runs while
`attempts <= maxScrolls`, so every failed probe — including the one at
`attempts = maxScrolls` — performs a scroll, and an absent target costs
`maxScrolls + 1` scroll operations, exceeding the claimed `maxScrolls`
bound: here `maxScrolls = 0` and one scroll is performed. -/
theorem claim_C4_counterexample :
    findRowByCell (nameMatches true (gridValueRx "A" false)) (fun _ => []) 0 =
      (GridOutcome.errorAfter, 1) := by
  decide

/-- Claim C4, amended: `selectLookupValue` scrolls at most `scrollPages`
times, returns after exactly `k` scrolls when the target first becomes
visible on iteration `k ≤ scrollPages` (0 scrolls on an initial hit), and
on exhaustion escalates having scrolled exactly `scrollPages` times;
`findRowByCell` probes at scroll offsets `0 … maxScrolls`, returns with
exactly `k` scrolls when the target is first visible at offset
`k ≤ maxScrolls`, but on a miss performs `maxScrolls + 1` scrolls (not
`maxScrolls`) before raising. -/
theorem claim_C4 :
    (∀ (exact : Bool) (value : String) (vis : Nat → List String) (n : Nat),
        countScroll (selectLookupTrace exact value vis n) ≤ n) ∧
    (∀ (exact : Bool) (value : String) (vis : Nat → List String) (n : Nat) (o : String),
        initialProbe exact value (vis 0) = some o →
        selectLookupTrace exact value vis n = [Ev.click o]) ∧
    (∀ (exact : Bool) (value : String) (vis : Nat → List String) (n k : Nat) (o : String),
        1 ≤ k → k ≤ n →
        initialProbe exact value (vis 0) = none →
        (∀ j, 1 ≤ j → j < k → loopProbe exact value (vis j) = none) →
        loopProbe exact value (vis k) = some o →
        selectLookupTrace exact value vis n =
          List.replicate k Ev.scroll ++ [Ev.click o]) ∧
    (∀ (exact : Bool) (value : String) (vis : Nat → List String) (n : Nat),
        initialProbe exact value (vis 0) = none →
        (∀ k, 1 ≤ k → k ≤ n → loopProbe exact value (vis k) = none) →
        countScroll (selectLookupTrace exact value vis n) = n) ∧
    (∀ (pred : String → Bool) (vis : Nat → List String) (maxScrolls k : Nat) (o : String),
        k ≤ maxScrolls →
        (∀ j, j < k → firstMatch pred (vis j) = none) →
        firstMatch pred (vis k) = some o →
        findRowByCell pred vis maxScrolls = (GridOutcome.foundRow o, k)) ∧
    (∀ (pred : String → Bool) (vis : Nat → List String) (maxScrolls : Nat),
        (∀ j, j ≤ maxScrolls → firstMatch pred (vis j) = none) →
        findRowByCell pred vis maxScrolls = (GridOutcome.errorAfter, maxScrolls + 1)) := by
  refine ⟨?_, ?_, ?_, ?_, ?_, ?_⟩
  · intro exact value vis n
    unfold selectLookupTrace
    cases hi : initialProbe exact value (vis 0) with
    | some o => simp [countScroll]
    | none => exact countScroll_lookupLoop exact value vis n 0
  · intro exact value vis n o hi
    unfold selectLookupTrace
    rw [hi]
  · intro exact value vis n k o hk1 hkn h0 hmiss hk
    unfold selectLookupTrace
    rw [h0]
    have := lookupLoop_found exact value vis n (k := k) (o := o) 0 (by omega) (by omega)
      (fun j hj1 hj2 => hmiss j (by omega) hj2) hk
    simpa using this
  · intro exact value vis n h0 hmiss
    unfold selectLookupTrace
    rw [h0]
    rw [lookupLoop_all_miss exact value vis n 0 (fun k hk1 hk2 => hmiss k (by omega) (by omega))]
    exact countScroll_replicate n Ev.openDialog (by simp)
  · intro pred vis maxScrolls k o hk hmiss hfound
    unfold findRowByCell
    exact gridSearch_found pred vis (maxScrolls + 1) 0 (by omega) (by omega)
      (fun j hj1 hj2 => hmiss j hj2) hfound
  · intro pred vis maxScrolls h
    unfold findRowByCell
    have := gridSearch_all_miss pred vis (maxScrolls + 1) 0
      (fun j hj1 hj2 => h j (by omega))
    simpa using this

/-- Witness for claim C4's amended theorem: searching for a value absent
from an always-empty listbox with a budget of 2 pages scrolls exactly
twice. -/
theorem claim_C4_witness :
    countScroll (selectLookupTrace true "X" (fun _ => []) 2) = 2 :=
  claim_C4.2.2.2.1 true "X" (fun _ => []) 2 rfl (fun _ _ _ => rfl)

/-- Claim C5, confirmed: in `selectLookupValue`, when the target is absent
from every rendered and scrolled window, the trace is exactly
`scrollPages` scrolls followed by one dialog escalation; the dialog is
opened at most once on any run, and whenever it is opened the trace shows
it happened only after the full scroll budget was exhausted; `setOption`
never opens a dialog and reports `notFound` when no rendered option
matches.  (The model is sequential, matching the spec's single-threaded
resource model, so "never concurrently" holds by construction.) -/
theorem claim_C5 :
    (∀ (exact : Bool) (value : String) (vis : Nat → List String) (n : Nat),
        initialProbe exact value (vis 0) = none →
        (∀ k, 1 ≤ k → k ≤ n → loopProbe exact value (vis k) = none) →
        selectLookupTrace exact value vis n =
            List.replicate n Ev.scroll ++ [Ev.openDialog] ∧
          countDialog (selectLookupTrace exact value vis n) = 1) ∧
    (∀ (exact : Bool) (value : String) (vis : Nat → List String) (n : Nat),
        countDialog (selectLookupTrace exact value vis n) ≤ 1) ∧
    (∀ (exact : Bool) (value : String) (vis : Nat → List String) (n : Nat),
        Ev.openDialog ∈ selectLookupTrace exact value vis n →
        selectLookupTrace exact value vis n =
          List.replicate n Ev.scroll ++ [Ev.openDialog]) ∧
    (∀ (exact : Bool) (value : String) (opts : List String),
        countDialog (setOptionTrace exact value opts) = 0) ∧
    (∀ (exact : Bool) (value : String) (opts : List String),
        (∀ e ∈ opts, nameMatches true (optionRx exact value) e = false) →
        setOptionModel exact value opts = OptOutcome.notFound) := by
  refine ⟨?_, ?_, ?_, ?_, ?_⟩
  · intro exact value vis n h0 hmiss
    have heq : selectLookupTrace exact value vis n =
        List.replicate n Ev.scroll ++ [Ev.openDialog] := by
      unfold selectLookupTrace
      rw [h0]
      exact lookupLoop_all_miss exact value vis n 0
        (fun k hk1 hk2 => hmiss k (by omega) (by omega))
    exact ⟨heq, by rw [heq]; exact countDialog_replicate_dialog n⟩
  · intro exact value vis n
    unfold selectLookupTrace
    cases hi : initialProbe exact value (vis 0) with
    | some o => simp [countDialog]
    | none => exact countDialog_lookupLoop exact value vis n 0
  · intro exact value vis n h
    unfold selectLookupTrace at h ⊢
    cases hi : initialProbe exact value (vis 0) with
    | some o =>
      rw [hi] at h
      simp at h
    | none =>
      rw [hi] at h
      exact lookupLoop_dialog_mem exact value vis n 0 h
  · intro exact value opts
    unfold setOptionTrace
    cases firstMatch (nameMatches true (optionRx exact value)) opts with
    | some o => rfl
    | none => rfl
  · intro exact value opts h
    unfold setOptionModel
    have : firstMatch (nameMatches true (optionRx exact value)) opts = none := by
      unfold firstMatch
      exact List.find?_eq_none.mpr fun e he hp => by
        rw [h e he] at hp
        exact Bool.false_ne_true hp
    rw [this]

/-- Witness for claim C5 at a concrete input: an always-empty listbox with
a budget of one page yields one scroll then exactly one dialog event. -/
theorem claim_C5_witness :
    selectLookupTrace true "X" (fun _ => []) 1 =
        List.replicate 1 Ev.scroll ++ [Ev.openDialog] ∧
      countDialog (selectLookupTrace true "X" (fun _ => []) 1) = 1 :=
  claim_C5.1 true "X" (fun _ => []) 1 rfl (fun _ _ _ => rfl)

/-! ### Calendar navigation (`pickFromCalendar`, powerapps-uci-forms.ts 303-340)

The popup heading is modelled by the absolute index of the month it
displays (clicking next/previous moves the displayed month by one); the
loop's `includes(long) || includes(short)` stop test holds exactly when
the displayed month equals the target month. -/

/-- Absolute index of a (year, 0-based month) pair. -/
def monthIndex (year month : Int) : Int := year * 12 + month

/-- `diff` as computed at powerapps-uci-forms.ts 326:
`(want.getFullYear() - current.getFullYear()) * 12 + (want.getMonth() - current.getMonth())`. -/
def monthsDiff (targetYear targetMonth currentYear currentMonth : Int) : Int :=
  (targetYear - currentYear) * 12 + (targetMonth - currentMonth)

inductive Hop
  | next
  | prev
deriving DecidableEq

/-- The hop loop (lines 331-340): up to `fuel` iterations; stop when the
heading shows the target month, otherwise click one month in the fixed
direction `goNext`. -/
def calHops (target : Int) (goNext : Bool) : Int → Nat → List Hop
  | _, 0 => []
  | shown, fuel + 1 =>
    if shown = target then []
    else
      (if goNext then Hop.next else Hop.prev) ::
        calHops target goNext (if goNext then shown + 1 else shown - 1) fuel

/-- `pickFromCalendar`'s month navigation when the heading parses:
`goNext = diff > 0`, `maxHops = |diff| + 24`. -/
def pickFromCalendarHops (current target : Int) : List Hop :=
  calHops target (decide (target - current > 0)) current ((target - current).natAbs + 24)

theorem calHops_zero (target : Int) (goNext : Bool) (shown : Int) :
    calHops target goNext shown 0 = [] := rfl

theorem calHops_succ (target : Int) (goNext : Bool) (shown : Int) (fuel : Nat) :
    calHops target goNext shown (fuel + 1) =
      if shown = target then []
      else
        (if goNext then Hop.next else Hop.prev) ::
          calHops target goNext (if goNext then shown + 1 else shown - 1) fuel := rfl

theorem calHops_next (fuel : Nat) : ∀ shown target : Int, shown ≤ target →
    (target - shown).natAbs ≤ fuel →
    calHops target true shown fuel = List.replicate (target - shown).natAbs Hop.next := by
  induction fuel with
  | zero =>
    intro shown target h1 h2
    have : (target - shown).natAbs = 0 := by omega
    rw [calHops_zero, this]
    rfl
  | succ fuel ih =>
    intro shown target h1 h2
    rw [calHops_succ]
    by_cases he : shown = target
    · rw [if_pos he]
      have : (target - shown).natAbs = 0 := by omega
      rw [this]
      rfl
    · rw [if_neg he]
      have e1 : (if (true : Bool) then Hop.next else Hop.prev) = Hop.next := rfl
      have e2 : (if (true : Bool) then shown + 1 else shown - 1) = shown + 1 := rfl
      rw [e1, e2, ih (shown + 1) target (by omega) (by omega)]
      have : (target - shown).natAbs = (target - (shown + 1)).natAbs + 1 := by omega
      rw [this, List.replicate_succ]

theorem calHops_prev (fuel : Nat) : ∀ shown target : Int, target ≤ shown →
    (target - shown).natAbs ≤ fuel →
    calHops target false shown fuel = List.replicate (target - shown).natAbs Hop.prev := by
  induction fuel with
  | zero =>
    intro shown target h1 h2
    have : (target - shown).natAbs = 0 := by omega
    rw [calHops_zero, this]
    rfl
  | succ fuel ih =>
    intro shown target h1 h2
    rw [calHops_succ]
    by_cases he : shown = target
    · rw [if_pos he]
      have : (target - shown).natAbs = 0 := by omega
      rw [this]
      rfl
    · rw [if_neg he]
      have e1 : (if (false : Bool) then Hop.next else Hop.prev) = Hop.prev := rfl
      have e2 : (if (false : Bool) then shown + 1 else shown - 1) = shown - 1 := rfl
      rw [e1, e2, ih (shown - 1) target (by omega) (by omega)]
      have : (target - shown).natAbs = (target - (shown - 1)).natAbs + 1 := by omega
      rw [this, List.replicate_succ]

/-- Claim C6, confirmed: with a parsed heading the navigator computes the
signed month difference (the `monthsDiff` formula equals the difference of
absolute month indexes), walks forward exactly when the difference is
positive and backward otherwise, performs exactly `|diff|` hops within the
`|diff| + 24` budget, and in particular January 2024 → March 2024 is two
forward hops while January 2024 → November 2023 is two backward hops. -/
theorem claim_C6 :
    (∀ ty tm cy cm : Int,
        monthsDiff ty tm cy cm = monthIndex ty tm - monthIndex cy cm) ∧
    (∀ current target : Int,
        pickFromCalendarHops current target =
          List.replicate (target - current).natAbs
            (if target - current > 0 then Hop.next else Hop.prev)) ∧
    (∀ current target : Int,
        (pickFromCalendarHops current target).length ≤ (target - current).natAbs + 24) ∧
    (pickFromCalendarHops (monthIndex 2024 0) (monthIndex 2024 2) = [Hop.next, Hop.next] ∧
      pickFromCalendarHops (monthIndex 2024 0) (monthIndex 2023 10) = [Hop.prev, Hop.prev]) := by
  have key : ∀ current target : Int,
      pickFromCalendarHops current target =
        List.replicate (target - current).natAbs
          (if target - current > 0 then Hop.next else Hop.prev) := by
    intro current target
    unfold pickFromCalendarHops
    by_cases h : target - current > 0
    · rw [decide_eq_true h, if_pos h]
      exact calHops_next _ current target (by omega) (by omega)
    · rw [decide_eq_false h, if_neg h]
      exact calHops_prev _ current target (by omega) (by omega)
  refine ⟨?_, key, ?_, ?_, ?_⟩
  · intro ty tm cy cm
    unfold monthsDiff monthIndex
    ring
  · intro current target
    rw [key current target, List.length_replicate]
    omega
  · rw [key]
    decide
  · rw [key]
    decide

/-! ### Date parsing (`parseDateLoose`, powerapps-uci-forms.ts 237-248) -/

/-- A `new Date(year, month0, day)` constructor call: the arguments are
recorded as passed (the claims concern which inputs are accepted, not the
JS overflow normalization of the resulting timestamp). -/
structure JsDate where
  year : Int
  month0 : Int
  day : Int
deriving DecidableEq

/-- The `TargetDate` input type: a string or a structured `Date`. -/
inductive TargetDate
  | str (s : String)
  | date (d : JsDate)

def digVal (c : Char) : Nat := c.toNat - 48

def isWs (c : Char) : Bool := c == ' ' || c == '\t' || c == '\n' || c == '\r'

/-- Model of `input.trim()`: strip whitespace from both ends. -/
def jsTrim (s : String) : String :=
  ⟨((s.data.dropWhile isWs).reverse.dropWhile isWs).reverse⟩

/-- The test `/^\d{4}-\d{2}-\d{2}/.test(s)` (line 241): an unanchored-end
prefix check. -/
def isoPrefixTest (s : String) : Bool :=
  match s.data with
  | a :: b :: c :: d :: s1 :: e :: f :: s2 :: g :: h :: _ =>
    a.isDigit && b.isDigit && c.isDigit && d.isDigit && s1 == '-' &&
      e.isDigit && f.isDigit && s2 == '-' && g.isDigit && h.isDigit
  | _ => false

def isLeap (y : Int) : Bool := y % 4 == 0 && (y % 100 != 0 || y % 400 == 0)

def daysInMonth (y m : Int) : Int :=
  if m = 2 then (if isLeap y then 29 else 28)
  else if m = 4 ∨ m = 6 ∨ m = 9 ∨ m = 11 then 30
  else 31

/-- Model of the JS builtin `Date.parse` (an external collaborator, not
repository code) restricted to exact 10-character `yyyy-MM-dd` strings
with an in-range month and day; longer date-time strings are conservatively
rejected.  Time zones are ignored: the parsed calendar date is returned. -/
def jsDateParseIso (s : String) : Option JsDate :=
  match s.data with
  | [a, b, c, d, s1, e, f, s2, g, h] =>
    if a.isDigit && b.isDigit && c.isDigit && d.isDigit && s1 == '-' &&
        e.isDigit && f.isDigit && s2 == '-' && g.isDigit && h.isDigit then
      let y : Int := (digVal a * 1000 + digVal b * 100 + digVal c * 10 + digVal d : Nat)
      let m : Int := (digVal e * 10 + digVal f : Nat)
      let dd : Int := (digVal g * 10 + digVal h : Nat)
      if 1 ≤ m ∧ m ≤ 12 ∧ 1 ≤ dd ∧ dd ≤ daysInMonth y m then some ⟨y, m - 1, dd⟩
      else none
    else none
  | _ => none

/-- The separator class `[\/\-]` of the second regex (line 245): slash OR
dash, in a day-first pattern. -/
def isSep (c : Char) : Bool := c == '/' || c == '-'

/-- Faithful matcher for `/^(\d{1,2})[\/\-](\d{1,2})[\/\-](\d{4})$/`:
the three shapes (2-2, 2-1 / 1-2, 1-1 digit day/month) are mutually
exclusive on any fixed string, so the greedy engine's answer is the unique
one.  Returns the captured `(day, month, year)`. -/
def dayFirstExec (cs : List Char) : Option (Nat × Nat × Nat) :=
  match cs with
  | [a1, a2, s1, b1, b2, s2, c1, c2, c3, c4] =>
    if a1.isDigit && a2.isDigit && isSep s1 && b1.isDigit && b2.isDigit && isSep s2 &&
        c1.isDigit && c2.isDigit && c3.isDigit && c4.isDigit then
      some (digVal a1 * 10 + digVal a2, digVal b1 * 10 + digVal b2,
        digVal c1 * 1000 + digVal c2 * 100 + digVal c3 * 10 + digVal c4)
    else none
  | [x1, x2, x3, x4, x5, c1, c2, c3, c4] =>
    if x1.isDigit && x2.isDigit && isSep x3 && x4.isDigit && isSep x5 &&
        c1.isDigit && c2.isDigit && c3.isDigit && c4.isDigit then
      some (digVal x1 * 10 + digVal x2, digVal x4,
        digVal c1 * 1000 + digVal c2 * 100 + digVal c3 * 10 + digVal c4)
    else if x1.isDigit && isSep x2 && x3.isDigit && x4.isDigit && isSep x5 &&
        c1.isDigit && c2.isDigit && c3.isDigit && c4.isDigit then
      some (digVal x1, digVal x3 * 10 + digVal x4,
        digVal c1 * 1000 + digVal c2 * 100 + digVal c3 * 10 + digVal c4)
    else none
  | [a1, s1, b1, s2, c1, c2, c3, c4] =>
    if a1.isDigit && isSep s1 && b1.isDigit && isSep s2 &&
        c1.isDigit && c2.isDigit && c3.isDigit && c4.isDigit then
      some (digVal a1, digVal b1,
        digVal c1 * 1000 + digVal c2 * 100 + digVal c3 * 10 + digVal c4)
    else none
  | _ => none

/-- `parseDateLoose` (lines 237-248): a `Date` value passes through; a
string is trimmed, tried against the ISO-prefix branch (falling through
when `Date.parse` rejects), then against the day-first regex, whose
captures feed `new Date(yyyy, mm - 1, dd)`; anything else throws the
"Unrecognized date" error (`none` here). -/
def parseDateLoose (input : TargetDate) : Option JsDate :=
  match input with
  | TargetDate.date d => some d
  | TargetDate.str s0 =>
    let s := jsTrim s0
    match (if isoPrefixTest s then jsDateParseIso s else none) with
    | some d => some d
    | none =>
      match dayFirstExec s.data with
      | some (dd, mm, yyyy) => some ⟨(yyyy : Int), (mm : Int) - 1, (dd : Int)⟩
      | none => none

/-- Claim C7 is refuted as stated: `"23-10-1990"` is day-first
dash-delimited — it contains no slash, and it fails the year-first
`\d{4}-\d{2}-\d{2}` shape — yet `parseDateLoose` accepts it (the second
regex's separator class is `[\/\-]`), silently returning a date for an
input outside the two claimed layouts. -/
theorem claim_C7_counterexample :
    parseDateLoose (TargetDate.str "23-10-1990") = some ⟨1990, 9, 23⟩ ∧
      ("23-10-1990".data.all fun c => c != '/') = true ∧
      isoPrefixTest "23-10-1990" = false := by
  refine ⟨by decide, by decide, by decide⟩

/-- Claim C7, amended: `parseDateLoose` accepts a structured `Date`, the
day-first layout with slash or dash (even mixed) separators and one- or
two-digit day/month fields, and strings whose first ten characters have
the `\d{4}-\d{2}-\d{2}` shape (valid ISO dates parse; the shape test is
prefix-only, so it is the gate, not a full-string layout check); every
trimmed input failing both the ISO-prefix test and the day-first pattern
is rejected with the unparsable-date error. -/
theorem claim_C7 :
    (∀ d : JsDate, parseDateLoose (TargetDate.date d) = some d) ∧
    (parseDateLoose (TargetDate.str "23/10/1990") = some ⟨1990, 9, 23⟩ ∧
      parseDateLoose (TargetDate.str "1990-10-23") = some ⟨1990, 9, 23⟩ ∧
      parseDateLoose (TargetDate.str "23-10-1990") = some ⟨1990, 9, 23⟩ ∧
      parseDateLoose (TargetDate.str "3/4/1990") = some ⟨1990, 3, 3⟩) ∧
    (∀ s : String, isoPrefixTest (jsTrim s) = false → dayFirstExec (jsTrim s).data = none →
        parseDateLoose (TargetDate.str s) = none) := by
  refine ⟨fun d => rfl, ⟨by decide, by decide, by decide, by decide⟩, ?_⟩
  intro s h1 h2
  have e : parseDateLoose (TargetDate.str s) =
      (match (if isoPrefixTest (jsTrim s) = true then jsDateParseIso (jsTrim s) else none) with
        | some d => some d
        | none =>
          match dayFirstExec (jsTrim s).data with
          | some (dd, mm, yyyy) => some (⟨(yyyy : Int), (mm : Int) - 1, (dd : Int)⟩ : JsDate)
          | none => none) := rfl
  rw [e, h1, h2]
  rfl

/-- Witness for claim C7 at a concrete rejected input. -/
theorem claim_C7_witness :
    parseDateLoose (TargetDate.str "hello") = none :=
  claim_C7.2.2 "hello" (by decide) (by decide)

/-! ### Day-cell selection inside the calendar popup (lines 342-346) -/

/-- Playwright `hasText` with a string: case-insensitive substring. -/
def hasTextCi (needle hay : String) : Bool :=
  toksWithin true (needle.data.map Tok.lit) hay.data

/-- The primary day locator pattern: `new RegExp(s)` built from a template
anchoring the day number at both ends, with no `i` flag. -/
def dayButtonRx (day : Nat) : String := "^" ++ toString day ++ "$"

/-- The day-cell locator of `pickFromCalendar`: a button whose accessible
name matches `^day$` exactly, `.or(...)` a gridcell whose text merely
contains the day number (`filter(\x7b hasText \x7d)`); the fallback is
consulted when no button matches. -/
def dayLocatorModel (day : Nat) (buttons cells : List String) : Option String :=
  match buttons.find? (nameMatches false (dayButtonRx day)) with
  | some b => some b
  | none => cells.find? fun c => hasTextCi (toString day) c

theorem toksFull_lit_cs (cs ds : List Char) :
    toksFull false (cs.map Tok.lit) ds = true ↔ cs = ds := by
  induction cs generalizing ds with
  | nil => cases ds <;> simp [toksFull]
  | cons c cs ih =>
    cases ds with
    | nil => simp [toksFull]
    | cons d ds => simp [toksFull, tokMatch, ih]

theorem parseRx_plain_anchored (s : String) (h : ∀ c ∈ s.data, c ∉ parserSpecials) :
    parseRx ("^" ++ s ++ "$") = some ⟨true, s.data.map Tok.lit, true⟩ := by
  have hd : ("^" ++ s ++ "$").data = '^' :: (s.data ++ ['$']) := by
    simp [String.data_append]
  rw [parseRx, hd, parseRxChars, parseToks_plain_append h, parseToks_dollar]
  simp

/-- A fully anchored pattern over parser-plain characters, compiled without
the `i` flag, matches exactly the literal itself. -/
theorem nameMatches_plain_anchored (s t : String) (h : ∀ c ∈ s.data, c ∉ parserSpecials) :
    nameMatches false ("^" ++ s ++ "$") t = true ↔ t = s := by
  rw [nameMatches, parseRx_plain_anchored s h]
  show toksFull false (s.data.map Tok.lit) t.data = true ↔ t = s
  rw [toksFull_lit_cs]
  constructor
  · intro he
    cases s
    cases t
    simp_all
  · intro he
    rw [he]

theorem dayString_plain : ∀ day : Nat, day < 32 →
    ∀ c ∈ (toString day).data, c ∉ parserSpecials := by
  decide

/-- Claim C8 is refuted as stated: the day locator has a second tier — the
`.or(...)` fallback filters gridcells with `hasText`, a substring match —
so when no button-role day cell matches (as in some calendar renderings),
a single-digit target can resolve to a cell of days 10-19 or to a leading
cell of the previous month: here target day 1 resolves to the cell "10". -/
theorem claim_C8_counterexample :
    dayLocatorModel 1 [] ["10", "1"] = some "10" ∧ ("10" : String) ≠ "1" := by
  refine ⟨by decide, by decide⟩

/-- Claim C8, amended: the primary tier of the day locator (the
button-role query) is anchored and exact — whenever it resolves, the
resolved cell's text is exactly the day number, so days 10-19 can never be
returned for a target 1-9 by that tier; only the `.or` gridcell fallback
uses substring matching (see the counterexample). -/
theorem claim_C8 :
    ∀ (day : Nat) (buttons cells : List String) (t : String),
      day < 32 →
      buttons.find? (nameMatches false (dayButtonRx day)) = some t →
      t = toString day ∧ dayLocatorModel day buttons cells = some (toString day) := by
  intro day buttons cells t hday hfind
  have ht : t = toString day :=
    (nameMatches_plain_anchored (toString day) t (dayString_plain day hday)).mp
      (List.find?_some hfind)
  refine ⟨ht, ?_⟩
  unfold dayLocatorModel
  rw [hfind, ht]

/-- Witness for claim C8 at a concrete input. -/
theorem claim_C8_witness :
    "7" = toString 7 ∧ dayLocatorModel 7 ["7"] [] = some (toString 7) :=
  claim_C8 7 ["7"] [] "7" (by decide) (by decide)

/-! ### Two-option fields (`setBoolean`, powerapps-uci-forms.ts 84-119) -/

/-- The checkbox branch (lines 101-107): read `isChecked`; click only when
it differs from the requested value (a click toggles the box).  Returns
the resulting checked state and the number of clicks issued. -/
def setBooleanCheckbox (value checked : Bool) : Bool × Nat :=
  if checked ≠ value then (!checked, 1) else (checked, 0)

/-- The switch branch (lines 110-116): `aria-checked` is read as the
string comparison `=== 'true'`; a click toggles the rendered attribute.
Returns the resulting attribute and the number of clicks issued. -/
def setBooleanSwitch (value : Bool) (attr : String) : String × Nat :=
  if (attr == "true") ≠ value then
    (if attr == "true" then "false" else "true", 1)
  else (attr, 0)

/-- Claim C9, confirmed: for the checkbox and switch variants of
`setBoolean`, a control already in the requested state receives no click
and is left untouched, and a second call with the same value is a no-op,
so calling twice equals calling once. -/
theorem claim_C9 :
    (∀ v : Bool, setBooleanCheckbox v v = (v, 0)) ∧
    (∀ v checked : Bool,
        setBooleanCheckbox v (setBooleanCheckbox v checked).1 =
          ((setBooleanCheckbox v checked).1, 0)) ∧
    (∀ (v : Bool) (attr : String), (attr == "true") = v → setBooleanSwitch v attr = (attr, 0)) ∧
    (∀ (v : Bool) (attr : String),
        setBooleanSwitch v (setBooleanSwitch v attr).1 =
          ((setBooleanSwitch v attr).1, 0)) := by
  refine ⟨by decide, by decide, ?_, ?_⟩
  · intro v attr h
    unfold setBooleanSwitch
    simp [h]
  · intro v attr
    unfold setBooleanSwitch
    by_cases h : (attr == "true") = v
    · simp [h]
    · cases v with
      | false =>
        have : (attr == "true") = true := by
          cases hb : attr == "true" with
          | true => rfl
          | false => exact absurd hb h
        rw [this]
        simp
      | true =>
        have : (attr == "true") = false := by
          cases hb : attr == "true" with
          | true => exact absurd hb h
          | false => rfl
        rw [this]
        simp

/-- Witness for claim C9's switch conjunct at a concrete input. -/
theorem claim_C9_witness : setBooleanSwitch true "true" = ("true", 0) :=
  claim_C9.2.2.1 true "true" (by decide)

/-! ### `clearLookup` (powerapps-uci-forms.ts 212-224) -/

/-- The rendered state `clearLookup` interacts with. -/
structure ClearUi where
  containerVisible : Bool
  clearBtnVisible : Bool
  chipVisible : Bool
deriving DecidableEq

inductive ClearOutcome
  | ok
  | controlNotFound
deriving DecidableEq

/-- `clearLookup`: `expect(container).toBeVisible()` raises when the
container is absent; otherwise the clear button is clicked only when
visible (what the click does to the chip is the UI's business, passed as
`clickEffect`), and the final "no chip remains" expectation carries
`.catch(() => \x7b\x7d)`, so its failure is swallowed.  Returns the outcome,
the final UI state, and the number of clicks performed. -/
def clearLookup (clickEffect : Bool → Bool) (ui : ClearUi) : ClearOutcome × ClearUi × Nat :=
  if ui.containerVisible = false then (ClearOutcome.controlNotFound, ui, 0)
  else if ui.clearBtnVisible then
    (ClearOutcome.ok, { ui with chipVisible := clickEffect ui.chipVisible }, 1)
  else (ClearOutcome.ok, ui, 0)

/-- Claim C10, confirmed: once the container is visible `clearLookup`
always reports success — with no visible clear button it performs no click
and leaves the state untouched, and because the post-clear verification is
swallowed it reports success even when the chip (the previous value) is
still rendered, as the concrete run with an ineffective click shows. -/
theorem claim_C10 :
    (∀ (clickEffect : Bool → Bool) (ui : ClearUi),
        ui.containerVisible = true →
        (clearLookup clickEffect ui).1 = ClearOutcome.ok) ∧
    (∀ (clickEffect : Bool → Bool) (ui : ClearUi),
        ui.containerVisible = true → ui.clearBtnVisible = false →
        clearLookup clickEffect ui = (ClearOutcome.ok, ui, 0)) ∧
    clearLookup id ⟨true, true, true⟩ = (ClearOutcome.ok, ⟨true, true, true⟩, 1) := by
  refine ⟨?_, ?_, by decide⟩
  · intro clickEffect ui h
    unfold clearLookup
    rw [h]
    by_cases hb : ui.clearBtnVisible
    · rw [if_pos hb]
      simp
    · rw [if_neg hb]
      simp [hb]
  · intro clickEffect ui h1 h2
    unfold clearLookup
    rw [h1, h2]
    simp

/-- Witness for claim C10 at a concrete input. -/
theorem claim_C10_witness :
    clearLookup id ⟨true, false, true⟩ = (ClearOutcome.ok, ⟨true, false, true⟩, 0) :=
  claim_C10.2.1 id ⟨true, false, true⟩ rfl rfl

end MD
